import Mathlib

/-!
Shallow embedding of the `video-site` reactive video pipeline
(`src/reactive_video_processor.py`) and of the stream registry of the
HTTP layer (`src/streaming_api.py`), with theorems settling the spec
claims about them.

Modelling conventions:
* Python `bytes` payloads are modelled as `String` (the code only ever
  builds them from formatted strings).
* Wall-clock time (`time.time()`) is modelled by an abstract clock
  function `Nat → Nat` passed as a parameter; measured durations are not
  modelled (they never influence control flow), so `processing_time` is
  set to `0`.
* Async generators are finite, so a stream is a `List` of the elements
  it yields, in yield order.
* `asyncio.gather(*tasks)` returns results in the order the tasks were
  passed (a documented guarantee of `gather`), so the concurrent
  per-batch fan-out is modelled as `List.map`.
* The semaphore-bounded concurrency of `process_frame_async` is modelled
  separately as a small-step transition system (`SemStep`) below.
-/

namespace VideoSite

/-- `VideoFrame` dataclass (reactive_video_processor.py, lines 22-28). -/
structure VideoFrame where
  frame_id : Nat
  data : String
  timestamp : Nat
  source : String
  format : String
deriving DecidableEq, Repr

/-- `ProcessedFrame` dataclass (lines 30-36). -/
structure ProcessedFrame where
  frame_id : Nat
  processed_data : String
  processing_time : Nat
  original_timestamp : Nat
deriving DecidableEq, Repr

/-- The frame count hard-coded in `create_video_stream` (`range(100)`, line 54). -/
def numFrames : Nat := 100

/-- `ReactiveVideoStream.create_video_stream` (lines 46-65): yields `count`
frames with `frame_id = 0, 1, ...`, payload `"frame_data_<id>"`, capture
timestamp from the clock, and metadata `source`/`"h264"`.  The source code
hard-codes `count = numFrames = 100`; the count is a parameter here so the
theorems cover every configured element count. -/
def create_video_stream (video_source : String) (clock : Nat → Nat)
    (count : Nat) : List VideoFrame :=
  (List.range count).map fun frame_id =>
    { frame_id := frame_id
      data := "frame_data_" ++ toString frame_id
      timestamp := clock frame_id
      source := video_source
      format := "h264" }

/-- `ReactiveVideoStream._cpu_intensive_processing` (lines 92-98): the pure
byte transform (the `time.sleep` is timing only). -/
def cpu_intensive_processing (data : String) : String :=
  "processed_" ++ data

/-- Functional result of `ReactiveVideoStream.process_frame_async`
(lines 67-90): semaphore acquisition and executor dispatch only bound
concurrency (modelled by `SemStep` below); the returned value is this pure
record.  The measured wall-clock `processing_time` is modelled as `0`. -/
def process_frame_async (frame : VideoFrame) : ProcessedFrame :=
  { frame_id := frame.frame_id
    processed_data := cpu_intensive_processing frame.data
    processing_time := 0
    original_timestamp := frame.timestamp }

/-- `ReactiveVideoStream.filter_frames` (lines 115-125): yields exactly the
frames satisfying the predicate, in stream order. -/
def filter_frames (stream : List VideoFrame)
    (predicate : VideoFrame → Bool) : List VideoFrame :=
  stream.filter predicate

/-- The accumulator loop of `ReactiveVideoStream.batch_process`
(lines 127-150): `batch` is the current accumulator; each arriving frame is
appended; when `len(batch) >= batch_size` the whole batch is processed
concurrently (`gather` preserves task order, hence `List.map`) and emitted;
at stream exhaustion a non-empty remainder is processed and emitted. -/
def batchLoop (batch_size : Int) (batch : List VideoFrame) :
    List VideoFrame → List (List ProcessedFrame)
  | [] => if batch.isEmpty then [] else [batch.map process_frame_async]
  | frame :: rest =>
    if ((batch ++ [frame]).length : Int) ≥ batch_size then
      (batch ++ [frame]).map process_frame_async :: batchLoop batch_size [] rest
    else
      batchLoop batch_size (batch ++ [frame]) rest

/-- `ReactiveVideoStream.batch_process` (lines 127-150), starting from the
empty accumulator (`batch = []`, line 135).  `batch_size` is a Python `int`,
hence `Int` (the code never validates it). -/
def batch_process (stream : List VideoFrame) (batch_size : Int) :
    List (List ProcessedFrame) :=
  batchLoop batch_size [] stream

/-- The effective chunk width of `batch_process`: with `batch_size ≤ 0` the
test `len(batch) >= batch_size` succeeds as soon as one element was
appended, so the loop behaves as width `1`; otherwise the width is
`batch_size` itself. -/
def effSize (batch_size : Int) : Nat :=
  max batch_size.toNat 1

/-- Reference chunking function: split a list into contiguous groups of `b`
elements, the last group possibly smaller.  `batchLoop` is proved equal to
it (`batchLoop_eq_chunkList`). -/
def chunkList (b : Nat) : List α → List (List α)
  | [] => []
  | x :: xs => (x :: xs.take (b - 1)) :: chunkList b (xs.drop (b - 1))
termination_by l => l.length
decreasing_by simp [List.length_drop]; omega

/-! ### Semaphore-bounded concurrency (`process_frame_async`, lines 67-81)

`ReactiveVideoStream.__init__` (lines 41-44) creates one
`asyncio.Semaphore(max_concurrent_tasks)`; `process_frame_async` wraps the
CPU-bound transform in `async with self.semaphore`.
`VideoProcessingPipeline.__init__` (line 156) creates a single
`ReactiveVideoStream` shared by every source, so the per-frame tasks of all
sources contend for the same semaphore.  We model each per-frame
transformation as a task tagged with its source name; the semaphore
counter and the task phases form the state of a small-step transition
system.  `acquire` needs a free slot (counter positive) and consumes it;
`release` (on scope exit of `async with`) returns it. -/

/-- Phase of one per-frame processing task. -/
inductive TaskPhase where
  | pending
  | running
  | done
deriving DecidableEq, Repr

/-- Semaphore counter plus the multiset of per-frame tasks, each tagged
with the name of the video source it belongs to. -/
structure SemState where
  sem : Nat
  tasks : Multiset (String × TaskPhase)
deriving DecidableEq

/-- One scheduler step: a pending task acquires the semaphore (only
possible when the counter is positive — `async with self.semaphore` blocks
otherwise), or a running task finishes and releases it.  Any source's task
may step: the pool is shared, not per-source. -/
inductive SemStep : SemState → SemState → Prop where
  | acquire (source : String) (sem : Nat) (rest : Multiset (String × TaskPhase)) :
      SemStep ⟨sem + 1, (source, TaskPhase.pending) ::ₘ rest⟩
        ⟨sem, (source, TaskPhase.running) ::ₘ rest⟩
  | release (source : String) (sem : Nat) (rest : Multiset (String × TaskPhase)) :
      SemStep ⟨sem, (source, TaskPhase.running) ::ₘ rest⟩
        ⟨sem + 1, (source, TaskPhase.done) ::ₘ rest⟩

/-- Initial state: counter at `max_concurrent_tasks`, all per-frame tasks
pending.  `sources` holds one entry per per-frame task, tagged with the
task's video source; tags repeat (one per frame of that source). -/
def initSemState (max_concurrent_tasks : Nat)
    (sources : Multiset String) : SemState :=
  ⟨max_concurrent_tasks, sources.map (fun source => (source, TaskPhase.pending))⟩

/-- Number of CPU-bound transformations currently executing, summed over
every source. -/
def runningCount (s : SemState) : Nat :=
  Multiset.countP (fun t => t.2 = TaskPhase.running) s.tasks

/-- Reachability under the scheduler. -/
def SemReachable (init s : SemState) : Prop :=
  Relation.ReflTransGen SemStep init s

/-! ### Pipeline supervisor and coordinator (lines 152-231)

The sink `_save_processed_frames` is a placeholder for the external sink
collaborator (spec section 6): the supervisor calls it once per emitted
batch and treats any failure as its own.  It is therefore a parameter
`sink : List ProcessedFrame → String → Except String Unit` here (the real
placeholder never fails, i.e. it is `fun _ _ => Except.ok ()`). -/

/-- Mutable counters of `VideoProcessingPipeline.__init__` (lines 155-158).
All increments happen between `await` points, so they are atomic under the
asyncio event loop and the concurrent supervisors are equivalent to a
sequential interleaving. -/
structure PipelineState where
  error_count : Nat
  processed_count : Nat
deriving DecidableEq, Repr

/-- The `async for processed_batch in batch_stream` body of
`_process_single_source` (lines 211-217): add the batch size to
`processed_count`, then hand the batch to the sink; a sink failure aborts
the loop and propagates (into the `except` clause). -/
def runBatches (sink : List ProcessedFrame → String → Except String Unit)
    (video_source : String) :
    List (List ProcessedFrame) → PipelineState → PipelineState × Except String Unit
  | [], st => (st, Except.ok ())
  | batch :: rest, st =>
    let st' : PipelineState :=
      { st with processed_count := st.processed_count + batch.length }
    match sink batch video_source with
    | Except.ok _ => runBatches sink video_source rest st'
    | Except.error e => (st', Except.error e)

/-- The even-id predicate of line 204 (`frame.frame_id % 2 == 0`). -/
def evenFramePred (frame : VideoFrame) : Bool :=
  frame.frame_id % 2 == 0

/-- The wired per-source pipeline of `_process_single_source`
(lines 198-208): source stream → even-id filter → batches of 5. -/
def sourceBatches (video_source : String) (clock : Nat → Nat) :
    List (List ProcessedFrame) :=
  batch_process
    (filter_frames (create_video_stream video_source clock numFrames) evenFramePred) 5

/-- `VideoProcessingPipeline._process_single_source` (lines 195-222): runs
the wired pipeline, feeding every batch to the sink; on any failure the
`except` clause increments `error_count` and RE-RAISES (`raise`,
line 222), so the failure leaves the supervisor as the second component. -/
def process_single_source (sink : List ProcessedFrame → String → Except String Unit)
    (clock : Nat → Nat) (video_source : String) (st : PipelineState) :
    PipelineState × Except String Unit :=
  match runBatches sink video_source (sourceBatches video_source clock) st with
  | (st', Except.ok _) => (st', Except.ok ())
  | (st', Except.error e) =>
    ({ st' with error_count := st'.error_count + 1 }, Except.error e)

/-- `asyncio.gather(*tasks, return_exceptions=True)` (line 174): every
supervisor runs to its own terminal state; an exception raised by one is
returned as that source's result value and neither cancels nor blocks the
others.  Results are in source order. -/
def gatherResults (sink : List ProcessedFrame → String → Except String Unit)
    (clock : Nat → Nat) :
    List String → PipelineState → PipelineState × List (Except String Unit)
  | [], st => (st, [])
  | source :: rest, st =>
    ((gatherResults sink clock rest (process_single_source sink clock source st).1).1,
      (process_single_source sink clock source st).2
        :: (gatherResults sink clock rest (process_single_source sink clock source st).1).2)

/-- The summary dict returned by `create_processing_pipeline`
(lines 188-193). -/
structure PipelineReport where
  total_time : Nat
  successful : Nat
  failed : Nat
  total_frames : Nat
deriving DecidableEq, Repr

/-- `VideoProcessingPipeline.create_processing_pipeline` (lines 160-193):
launches one supervisor per source, gathers all their results with
`return_exceptions=True`, counts non-exception and exception results, and
returns the report.  `elapsed` abstracts the measured wall time
(`time.time()` difference).  The function is total: no exception escapes
it. -/
def create_processing_pipeline
    (sink : List ProcessedFrame → String → Except String Unit)
    (clock : Nat → Nat) (elapsed : Nat) (video_sources : List String)
    (st : PipelineState) : PipelineReport × PipelineState :=
  ({ total_time := elapsed
     successful := (((gatherResults sink clock video_sources st).2).filter
       (fun r => r.isOk)).length
     failed := (((gatherResults sink clock video_sources st).2).filter
       (fun r => !r.isOk)).length
     total_frames := (gatherResults sink clock video_sources st).1.processed_count },
   (gatherResults sink clock video_sources st).1)

/-- `ReactiveVideoStream.__init__` (lines 41-44) under CPython semantics:
`asyncio.Semaphore(value)` raises `ValueError` for a negative value, and
`ThreadPoolExecutor(max_workers)` raises `ValueError` for
`max_workers <= 0`; otherwise construction succeeds with the given
concurrency bound.  The constructor receives no batch size, so no batch
size validation can (or does) happen at construction. -/
def mkReactiveVideoStream (max_concurrent_tasks : Int) : Except String Nat :=
  if max_concurrent_tasks < 0 then
    Except.error "ValueError: Semaphore initial value must be >= 0"
  else if max_concurrent_tasks ≤ 0 then
    Except.error "ValueError: max_workers must be greater than 0"
  else
    Except.ok max_concurrent_tasks.toNat

/-! ### Stream registry of the HTTP layer (`src/streaming_api.py`) -/

/-- The per-stream metadata dict built by `VideoStreamer.start_stream`
(lines 34-38); `start_time` abstracts `datetime.now()`. -/
structure StreamInfo where
  source : String
  start_time : Nat
  status : String
deriving DecidableEq, Repr

/-- `self.active_streams`: a Python dict keyed by stream id, modelled as
an association list with (invariantly) unique keys, in insertion order. -/
abbrev StreamRegistry : Type :=
  List (String × StreamInfo)

/-- `VideoStreamer.start_stream` (lines 30-40): under the lock, if the id
is absent insert the new entry and return `True`, else return `False`
without touching the registry. -/
def start_stream (active_streams : StreamRegistry) (stream_id : String)
    (source : String) (now : Nat) : Bool × StreamRegistry :=
  if active_streams.any (fun p => p.1 == stream_id) then
    (false, active_streams)
  else
    (true, active_streams ++ [(stream_id, ⟨source, now, "active"⟩)])

/-- `VideoStreamer.stop_stream` (lines 42-48): under the lock, if the id is
present delete its entry (`del`) and return `True`, else return `False`. -/
def stop_stream (active_streams : StreamRegistry) (stream_id : String) :
    Bool × StreamRegistry :=
  if active_streams.any (fun p => p.1 == stream_id) then
    (true, active_streams.filter (fun p => !(p.1 == stream_id)))
  else
    (false, active_streams)

/-- A sink that rejects every batch, used to exercise the failure path of
the supervisor (the spec's injected `SinkError`). -/
def failingSink : List ProcessedFrame → String → Except String Unit :=
  fun _ _ => Except.error "sink failure"

/-! ### Properties of `chunkList` -/

theorem chunkList_nil (b : Nat) : chunkList b ([] : List α) = [] := by
  rw [chunkList]

/-- Unfold one chunk: for a positive width the first chunk is `l.take b`
and the rest chunks `l.drop b`. -/
theorem chunkList_cons (b : Nat) (hb : 0 < b) (x : α) (xs : List α) :
    chunkList b (x :: xs) = (x :: xs).take b :: chunkList b ((x :: xs).drop b) := by
  rw [chunkList]
  obtain ⟨c, rfl⟩ := Nat.exists_eq_add_of_lt hb
  simp [List.take_succ_cons, List.drop_succ_cons]

/-- The chunks concatenate back to the original list. -/
theorem chunkList_flatten (b : Nat) (l : List α) : (chunkList b l).flatten = l := by
  induction l using chunkList.induct b with
  | case1 => simp [chunkList]
  | case2 x xs ih => rw [chunkList]; simp [ih]

/-- Every chunk is a sublist of the original list. -/
theorem chunkList_sublist (b : Nat) (l : List α) :
    ∀ c ∈ chunkList b l, List.Sublist c l := by
  induction l using chunkList.induct b with
  | case1 => simp [chunkList]
  | case2 x xs ih =>
    rw [chunkList]
    intro c hc
    rcases List.mem_cons.mp hc with rfl | hc
    · exact (List.take_sublist _ _).cons₂ x
    · exact ((ih c hc).trans (List.drop_sublist _ _)).trans (List.sublist_cons_self x xs)

/-- A short non-empty list is a single chunk. -/
theorem chunkList_of_length_le (b : Nat) (hb : 0 < b) (l : List α)
    (hne : l ≠ []) (hlen : l.length ≤ b) : chunkList b l = [l] := by
  cases l with
  | nil => exact absurd rfl hne
  | cons x xs =>
    rw [chunkList]
    have hxs : xs.length ≤ b - 1 := by simp at hlen; omega
    simp [List.take_of_length_le hxs, List.drop_eq_nil_of_le hxs, chunkList_nil]

/-- The number of chunks is `⌈l.length / b⌉ = (l.length + b - 1) / b`. -/
theorem chunkList_length (b : Nat) (hb : 0 < b) (l : List α) :
    (chunkList b l).length = (l.length + b - 1) / b := by
  induction l using chunkList.induct b with
  | case1 =>
    rw [chunkList_nil]
    simp [Nat.div_eq_of_lt (show b - 1 < b by omega)]
  | case2 x xs ih =>
    rw [chunkList]
    simp only [List.length_cons, ih, List.length_drop]
    rcases Nat.lt_or_ge xs.length (b - 1) with hlt | hge
    · rw [Nat.sub_eq_zero_of_le (Nat.le_of_lt hlt)]
      rw [Nat.div_eq_of_lt (show 0 + b - 1 < b by omega)]
      have hx : xs.length + 1 + b - 1 = xs.length + b := by omega
      rw [hx, Nat.add_div_right _ hb, Nat.div_eq_of_lt (by omega)]
    · have h1 : xs.length - (b - 1) + b - 1 = xs.length := by omega
      have h2 : xs.length + 1 + b - 1 = xs.length + b := by omega
      rw [h1, h2, Nat.add_div_right _ hb]

/-- Every chunk but the last has exactly `b` elements. -/
theorem chunkList_dropLast_length (b : Nat) (hb : 0 < b) (l : List α) :
    ∀ c ∈ (chunkList b l).dropLast, c.length = b := by
  induction l using chunkList.induct b with
  | case1 => rw [chunkList_nil]; simp
  | case2 x xs ih =>
    intro c hc
    rcases Nat.lt_or_ge xs.length b with hlt | hge
    · rw [chunkList_of_length_le b hb _ (by simp) (by simp; omega)] at hc
      simp at hc
    · rw [chunkList] at hc
      have hdrop : xs.drop (b - 1) ≠ [] := by
        intro h
        have := congrArg List.length h
        simp [List.length_drop] at this
        omega
      have hchunk : chunkList b (xs.drop (b - 1)) ≠ [] := by
        intro h
        have := chunkList_flatten b (xs.drop (b - 1))
        rw [h] at this
        exact hdrop this.symm
      rw [List.dropLast_cons_of_ne_nil hchunk] at hc
      rcases List.mem_cons.mp hc with rfl | hc
      · simp [List.length_take]; omega
      · exact ih c hc

/-- The last chunk has `l.length % b` elements (`b` when `b` divides). -/
theorem chunkList_getLast_length (b : Nat) (hb : 0 < b) (l : List α) (c : List α)
    (hc : (chunkList b l).getLast? = some c) :
    c.length = if l.length % b = 0 then b else l.length % b := by
  induction l using chunkList.induct b with
  | case1 => rw [chunkList_nil] at hc; simp at hc
  | case2 x xs ih =>
    rcases Nat.lt_or_ge xs.length b with hlt | hge
    · rw [chunkList_of_length_le b hb _ (by simp) (by simp; omega)] at hc
      simp at hc
      subst hc
      by_cases hb1 : (x :: xs).length = b
      · simp [hb1, Nat.mod_self]
      · have hlt' : (x :: xs).length < b := by simp; simp at hb1; omega
        rw [Nat.mod_eq_of_lt hlt']
        simp
    · rw [chunkList] at hc
      have hdrop : xs.drop (b - 1) ≠ [] := by
        intro h
        have := congrArg List.length h
        simp [List.length_drop] at this
        omega
      have hchunk : chunkList b (xs.drop (b - 1)) ≠ [] := by
        intro h
        have := chunkList_flatten b (xs.drop (b - 1))
        rw [h] at this
        exact hdrop this.symm
      rw [List.getLast?_cons] at hc
      rcases hl : (chunkList b (xs.drop (b - 1))).getLast? with _ | c'
      · rw [List.getLast?_eq_none_iff] at hl
        exact absurd hl hchunk
      · rw [hl] at hc
        simp at hc
        subst hc
        rw [ih hl]
        have hmod : (x :: xs).length % b = (xs.drop (b - 1)).length % b := by
          have hble : b ≤ (x :: xs).length := by simp; omega
          rw [Nat.mod_eq_sub_mod hble, List.length_drop, List.length_cons]
          congr 1
          omega
        rw [hmod]

/-- Splitting off a full-width first chunk. -/
theorem chunkList_append_of_length_eq (b : Nat) (hb : 0 < b) (l₁ l₂ : List α)
    (h : l₁.length = b) : chunkList b (l₁ ++ l₂) = l₁ :: chunkList b l₂ := by
  cases l₁ with
  | nil => rw [← h] at hb; simp at hb
  | cons x xs =>
    rw [List.cons_append, chunkList_cons b hb, ← List.cons_append,
      List.take_left' h, List.drop_left' h]

/-- Width-one chunking yields singleton chunks. -/
theorem chunkList_one (l : List α) : chunkList 1 l = l.map (fun a => [a]) := by
  induction l using chunkList.induct 1 with
  | case1 => simp [chunkList_nil]
  | case2 x xs ih => rw [chunkList]; simp at ih ⊢; exact ih

/-- The effective width is always positive. -/
theorem effSize_pos (batch_size : Int) : 0 < effSize batch_size :=
  Nat.lt_of_lt_of_le Nat.zero_lt_one (Nat.le_max_right _ 1)

theorem one_le_effSize (batch_size : Int) : 1 ≤ effSize batch_size :=
  Nat.le_max_right _ 1

/-- For a positive batch size, the effective width is the batch size. -/
theorem effSize_of_pos (batch_size : Int) (h : 0 < batch_size) :
    (effSize batch_size : Int) = batch_size := by
  unfold effSize
  rw [Nat.max_eq_left (by omega : 1 ≤ batch_size.toNat)]
  omega

/-- For a non-positive batch size, the effective width is `1`: the test
`len(batch) >= batch_size` succeeds after every single append. -/
theorem effSize_of_nonpos (batch_size : Int) (h : batch_size ≤ 0) :
    effSize batch_size = 1 := by
  unfold effSize
  rw [Int.toNat_of_nonpos h]
  decide

/-! ### `batch_process` is chunking followed by per-element processing -/

/-- Invariant of the accumulator loop of `batch_process`: while the
accumulator still has room (`len(batch) < batch_size` is maintained by the
loop, and the loop starts empty), the remaining output is exactly the
chunking of accumulator-then-remaining-stream, each chunk processed
element-wise. -/
theorem batchLoop_eq_chunkList (batch_size : Int) (l acc : List VideoFrame)
    (hacc : acc.length + 1 ≤ effSize batch_size) :
    batchLoop batch_size acc l =
      (chunkList (effSize batch_size) (acc ++ l)).map (List.map process_frame_async) := by
  induction l generalizing acc with
  | nil =>
    rw [batchLoop]
    cases hne : acc.isEmpty with
    | true =>
      have : acc = [] := by simpa using hne
      subst this
      simp [chunkList_nil]
    | false =>
      have hne' : acc ≠ [] := by simpa using hne
      rw [List.append_nil,
        chunkList_of_length_le (effSize batch_size) (effSize_pos batch_size) acc hne'
          (by omega)]
      simp [hne]
  | cons f rest ih =>
    rw [batchLoop]
    by_cases hcond : ((acc ++ [f]).length : Int) ≥ batch_size
    · rw [if_pos hcond]
      have hc' : (acc.length + 1 : Int) ≥ batch_size := by simpa using hcond
      have hlen : (acc ++ [f]).length = effSize batch_size := by
        simp only [List.length_append, List.length_cons, List.length_nil]
        by_cases hpos : 0 < batch_size
        · have := effSize_of_pos batch_size hpos
          omega
        · rw [effSize_of_nonpos batch_size (by omega)] at hacc ⊢
          omega
      rw [show acc ++ f :: rest = (acc ++ [f]) ++ rest by simp,
        chunkList_append_of_length_eq _ (effSize_pos batch_size) _ _ hlen,
        List.map_cons, ih [] (by simpa using one_le_effSize batch_size)]
      simp
    · rw [if_neg hcond]
      have hc' : (acc.length + 1 : Int) < batch_size := by
        simp only [List.length_append, List.length_cons, List.length_nil] at hcond
        omega
      have hacc' : (acc ++ [f]).length + 1 ≤ effSize batch_size := by
        simp only [List.length_append, List.length_cons, List.length_nil]
        have hpos : 0 < batch_size := by omega
        have := effSize_of_pos batch_size hpos
        omega
      rw [ih (acc ++ [f]) hacc']
      simp

/-- `batch_process` equals chunking at the effective width followed by
order-preserving concurrent processing of each chunk. -/
theorem batch_process_eq_chunkList (stream : List VideoFrame) (batch_size : Int) :
    batch_process stream batch_size =
      (chunkList (effSize batch_size) stream).map (List.map process_frame_async) := by
  have h := batchLoop_eq_chunkList batch_size stream []
    (by simpa using one_le_effSize batch_size)
  simpa using h

/-! ### Supporting lemmas -/

theorem runningCount_add_sem_invariant (s s' : SemState)
    (hstep : SemStep s s') : runningCount s' + s'.sem = runningCount s + s.sem := by
  cases hstep with
  | acquire source sem rest =>
    simp [runningCount, Multiset.countP_cons]
    omega
  | release source sem rest =>
    simp [runningCount, Multiset.countP_cons]
    omega

theorem runningCount_init (max_concurrent_tasks : Nat) (sources : Multiset String) :
    runningCount (initSemState max_concurrent_tasks sources) = 0 := by
  simp only [runningCount, initSemState]
  rw [Multiset.countP_eq_zero]
  intro t ht
  rcases Multiset.mem_map.mp ht with ⟨source, _, rfl⟩
  simp

theorem semReachable_running_add_sem (max_concurrent_tasks : Nat)
    (sources : Multiset String) (s : SemState)
    (h : SemReachable (initSemState max_concurrent_tasks sources) s) :
    runningCount s + s.sem = max_concurrent_tasks := by
  induction h with
  | refl => rw [runningCount_init]; simp [initSemState]
  | tail _ hstep ih => rw [runningCount_add_sem_invariant _ _ hstep, ih]

theorem runBatches_result_indep
    (sink : List ProcessedFrame → String → Except String Unit)
    (video_source : String) (batches : List (List ProcessedFrame))
    (st st' : PipelineState) :
    (runBatches sink video_source batches st).2
      = (runBatches sink video_source batches st').2 := by
  induction batches generalizing st st' with
  | nil => rfl
  | cons batch rest ih =>
    rw [runBatches, runBatches]
    cases sink batch video_source with
    | ok _ => exact ih _ _
    | error e => rfl

theorem runBatches_error_count
    (sink : List ProcessedFrame → String → Except String Unit)
    (video_source : String) (batches : List (List ProcessedFrame))
    (st : PipelineState) :
    (runBatches sink video_source batches st).1.error_count = st.error_count := by
  induction batches generalizing st with
  | nil => rfl
  | cons batch rest ih =>
    rw [runBatches]
    cases sink batch video_source with
    | ok _ => exact ih _
    | error e => rfl

theorem runBatches_processed_count_mono
    (sink : List ProcessedFrame → String → Except String Unit)
    (video_source : String) (batches : List (List ProcessedFrame))
    (st : PipelineState) :
    st.processed_count ≤ (runBatches sink video_source batches st).1.processed_count := by
  induction batches generalizing st with
  | nil => exact Nat.le_refl _
  | cons batch rest ih =>
    rw [runBatches]
    cases sink batch video_source with
    | ok _ =>
      refine Nat.le_trans ?_ (ih _)
      simp
    | error e => simp

theorem process_single_source_result_indep
    (sink : List ProcessedFrame → String → Except String Unit)
    (clock : Nat → Nat) (video_source : String) (st st' : PipelineState) :
    (process_single_source sink clock video_source st).2
      = (process_single_source sink clock video_source st').2 := by
  unfold process_single_source
  have h := runBatches_result_indep sink video_source
    (sourceBatches video_source clock) st st'
  rcases h1 : runBatches sink video_source (sourceBatches video_source clock) st
    with ⟨st1, r1⟩
  rcases h2 : runBatches sink video_source (sourceBatches video_source clock) st'
    with ⟨st2, r2⟩
  simp only [h1, h2] at h ⊢
  rw [show r1 = r2 from h]
  cases r2 <;> rfl

theorem gatherResults_eq_map
    (sink : List ProcessedFrame → String → Except String Unit)
    (clock : Nat → Nat) (video_sources : List String) (st : PipelineState) :
    (gatherResults sink clock video_sources st).2 =
      video_sources.map
        (fun source => (process_single_source sink clock source ⟨0, 0⟩).2) := by
  induction video_sources generalizing st with
  | nil => rfl
  | cons source rest ih =>
    rw [gatherResults]
    simp only [List.map_cons]
    rw [ih]
    exact congrArg (· :: _) (process_single_source_result_indep sink clock source st ⟨0, 0⟩)

theorem length_filter_isOk_add (results : List (Except String Unit)) :
    (results.filter (fun r => r.isOk)).length
      + (results.filter (fun r => !r.isOk)).length = results.length := by
  induction results with
  | nil => rfl
  | cons r rest ih =>
    cases hr : r.isOk <;> simp [List.filter_cons, hr] <;> omega

theorem any_key_iff (l : StreamRegistry) (stream_id : String) :
    l.any (fun p => p.1 == stream_id) = true ↔ stream_id ∈ l.map Prod.fst := by
  rw [List.any_eq_true, List.mem_map]
  constructor
  · rintro ⟨p, hp, hpe⟩
    exact ⟨p, hp, by simpa using hpe⟩
  · rintro ⟨p, hp, hpe⟩
    exact ⟨p, hp, by simpa using hpe⟩

theorem filter_not_key_length (l : StreamRegistry) (stream_id : String)
    (hnodup : (l.map Prod.fst).Nodup) (hmem : stream_id ∈ l.map Prod.fst) :
    (l.filter (fun p => !(p.1 == stream_id))).length + 1 = l.length := by
  induction l with
  | nil => simp at hmem
  | cons x xs ih =>
    simp only [List.map_cons, List.nodup_cons] at hnodup
    simp only [List.map_cons, List.mem_cons] at hmem
    rcases hmem with heq | hmem
    · have hx : (!(x.1 == stream_id)) = false := by simp [heq]
      rw [List.filter_cons, hx]
      have hxs : xs.filter (fun p => !(p.1 == stream_id)) = xs := by
        rw [List.filter_eq_self]
        intro p hp
        simp only [Bool.not_eq_true', beq_eq_false_iff_ne, ne_eq]
        intro hcontra
        exact hnodup.1 (heq ▸ hcontra ▸ List.mem_map_of_mem Prod.fst hp)
      simp [hxs]
    · have hx : (!(x.1 == stream_id)) = true := by
        simp only [Bool.not_eq_false', Bool.not_eq_true', beq_eq_false_iff_ne, ne_eq]
        intro hcontra
        exact hnodup.1 (hcontra ▸ hmem)
      rw [List.filter_cons, if_pos hx]
      have h2 := ih hnodup.2 hmem
      simp only [List.length_cons]
      omega

theorem effSize_toNat (batch_size : Int) (h : 0 < batch_size) :
    effSize batch_size = batch_size.toNat := by
  unfold effSize
  exact Nat.max_eq_left (by omega)

/-! ### The claims -/

/-- Claim C1: over a stream with strictly increasing frame ids, every batch
emitted by `batch_process` carries strictly increasing frame ids that
equal, in order, the ids of the frames admitted to that batch (the batches
are exactly the contiguous chunks of the input, each processed element-wise
in admission order, as `asyncio.gather` preserves task order), and every
`ProcessedFrame` keeps the frame id of its originating frame. -/
theorem claim_C1_batch_order_preservation (stream : List VideoFrame)
    (batch_size : Int)
    (hmono : (stream.map VideoFrame.frame_id).Pairwise (· < ·)) :
    batch_process stream batch_size
        = (chunkList (effSize batch_size) stream).map (List.map process_frame_async)
    ∧ (∀ batch ∈ batch_process stream batch_size,
        (batch.map ProcessedFrame.frame_id).Pairwise (· < ·))
    ∧ ((batch_process stream batch_size).map
          (fun batch => batch.map ProcessedFrame.frame_id)).flatten
        = stream.map VideoFrame.frame_id
    ∧ (∀ frame : VideoFrame,
        (process_frame_async frame).frame_id = frame.frame_id) := by
  refine ⟨batch_process_eq_chunkList stream batch_size, ?_, ?_, fun _ => rfl⟩
  · intro batch hb
    rw [batch_process_eq_chunkList] at hb
    rcases List.mem_map.mp hb with ⟨chunk, hchunk, rfl⟩
    have hids : (chunk.map process_frame_async).map ProcessedFrame.frame_id
        = chunk.map VideoFrame.frame_id := by
      rw [List.map_map]
      rfl
    rw [hids]
    exact hmono.sublist ((chunkList_sublist _ _ _ hchunk).map VideoFrame.frame_id)
  · rw [batch_process_eq_chunkList, List.map_map]
    have hcomp : ((fun batch => List.map ProcessedFrame.frame_id batch)
        ∘ List.map process_frame_async) = List.map VideoFrame.frame_id := by
      funext chunk
      rw [Function.comp_apply, List.map_map]
      rfl
    rw [hcomp, ← List.map_flatten, chunkList_flatten]

/-- Witness for C1: a five-frame stream with batch size 2. -/
theorem claim_C1_witness :
    ((create_video_stream "v" (fun _ => 0) 5).map VideoFrame.frame_id).Pairwise (· < ·)
    ∧ ∀ batch ∈ batch_process (create_video_stream "v" (fun _ => 0) 5) 2,
        (batch.map ProcessedFrame.frame_id).Pairwise (· < ·) :=
  ⟨by decide,
   (claim_C1_batch_order_preservation (create_video_stream "v" (fun _ => 0) 5) 2
     (by decide)).2.1⟩

/-- Claim C2: in any state reachable from a pipeline start with concurrency
bound `max_concurrent_tasks` (the single semaphore of the one
`ReactiveVideoStream` that `VideoProcessingPipeline` shares across all
sources), the number of concurrently executing per-frame transformations,
summed over every source, never exceeds the bound. -/
theorem claim_C2_bounded_concurrency (max_concurrent_tasks : Nat)
    (sources : Multiset String) (s : SemState)
    (h : SemReachable (initSemState max_concurrent_tasks sources) s) :
    runningCount s ≤ max_concurrent_tasks := by
  have hinv := semReachable_running_add_sem max_concurrent_tasks sources s h
  omega

/-- Witness for C2: two sources sharing a single slot; after the first
task acquires the slot, one transformation runs and the bound holds. -/
theorem claim_C2_witness :
    runningCount ⟨0, ("video_source_0", TaskPhase.running)
        ::ₘ {("video_source_1", TaskPhase.pending)}⟩ ≤ 1 :=
  claim_C2_bounded_concurrency 1 {"video_source_0", "video_source_1"} _
    (Relation.ReflTransGen.single
      (SemStep.acquire "video_source_0" 0 {("video_source_1", TaskPhase.pending)}))

/-- Claim C3: for a positive batch size `B`, `batch_process` over `N` input
frames emits exactly `⌈N/B⌉ = (N + B - 1) / B` batches; every batch except
possibly the last has exactly `B` elements; the last batch has `N mod B`
elements (`B` when `B` divides `N`); an empty input yields no batch. -/
theorem claim_C3_batch_count_and_sizes (stream : List VideoFrame)
    (batch_size : Int) (hpos : 0 < batch_size) :
    (batch_process stream batch_size).length
        = (stream.length + batch_size.toNat - 1) / batch_size.toNat
    ∧ (∀ batch ∈ (batch_process stream batch_size).dropLast,
        batch.length = batch_size.toNat)
    ∧ (∀ last, (batch_process stream batch_size).getLast? = some last →
        last.length = if stream.length % batch_size.toNat = 0 then batch_size.toNat
          else stream.length % batch_size.toNat)
    ∧ (stream = [] → batch_process stream batch_size = []) := by
  have hB := effSize_toNat batch_size hpos
  have hBpos : 0 < batch_size.toNat := by omega
  refine ⟨?_, ?_, ?_, ?_⟩
  · rw [batch_process_eq_chunkList, hB, List.length_map, chunkList_length _ hBpos]
  · intro batch hb
    rw [batch_process_eq_chunkList, hB, ← List.map_dropLast] at hb
    rcases List.mem_map.mp hb with ⟨chunk, hchunk, rfl⟩
    rw [List.length_map]
    exact chunkList_dropLast_length _ hBpos stream chunk hchunk
  · intro last hlast
    rw [batch_process_eq_chunkList, hB, List.getLast?_map] at hlast
    rcases hc : (chunkList batch_size.toNat stream).getLast? with _ | chunk
    · rw [hc] at hlast
      exact absurd hlast (by simp)
    · rw [hc] at hlast
      have hlen := chunkList_getLast_length batch_size.toNat hBpos stream chunk hc
      have hl : last = chunk.map process_frame_async := by
        simpa using hlast.symm
      subst hl
      rw [List.length_map, hlen]
  · intro h
    subst h
    rfl

/-- Witness for C3: seven frames at batch size 3 give `⌈7/3⌉ = 3` batches. -/
theorem claim_C3_witness :
    (0 : Int) < 3
    ∧ (batch_process (create_video_stream "v" (fun _ => 0) 7) 3).length
        = ((create_video_stream "v" (fun _ => 0) 7).length + (3 : Int).toNat - 1)
          / (3 : Int).toNat :=
  ⟨by decide,
   (claim_C3_batch_count_and_sizes (create_video_stream "v" (fun _ => 0) 7) 3
     (by decide)).1⟩

/-- Claim C4: the coordinator is total — it always returns a report (thanks
to `gather(..., return_exceptions=True)` no exception escapes), the success
and failure counts sum to the number of sources, the report carries the
elapsed time and the aggregate processed count, and each source's outcome
is the same as if it ran alone (failures neither cancel nor block
siblings). -/
theorem claim_C4_coordinator_total_report
    (sink : List ProcessedFrame → String → Except String Unit) (clock : Nat → Nat)
    (elapsed : Nat) (video_sources : List String) (st : PipelineState) :
    (create_processing_pipeline sink clock elapsed video_sources st).1.successful
        + (create_processing_pipeline sink clock elapsed video_sources st).1.failed
        = video_sources.length
    ∧ (create_processing_pipeline sink clock elapsed video_sources st).1.total_time
        = elapsed
    ∧ (create_processing_pipeline sink clock elapsed video_sources st).1.total_frames
        = (create_processing_pipeline sink clock elapsed video_sources st).2.processed_count
    ∧ (gatherResults sink clock video_sources st).2
        = video_sources.map
            (fun source => (process_single_source sink clock source ⟨0, 0⟩).2) := by
  refine ⟨?_, rfl, rfl, gatherResults_eq_map sink clock video_sources st⟩
  show ((gatherResults sink clock video_sources st).2.filter (fun r => r.isOk)).length
      + ((gatherResults sink clock video_sources st).2.filter (fun r => !r.isOk)).length
      = video_sources.length
  rw [length_filter_isOk_add, gatherResults_eq_map, List.length_map]

/-- Claim C5 as stated is false (see `claim_C5_counterexample`: the
supervisor re-raises).  Amended: the supervisor produces exactly one
terminal outcome; on failure it increments the error counter (recording
the failure) and re-raises exactly the underlying pipeline failure — the
outcome equals the wired pipeline's own result — and the processed counter
never decreases. -/
theorem claim_C5_supervisor_records_and_reraises
    (sink : List ProcessedFrame → String → Except String Unit) (clock : Nat → Nat)
    (video_source : String) (st : PipelineState) :
    (process_single_source sink clock video_source st).2
        = (runBatches sink video_source (sourceBatches video_source clock) st).2
    ∧ (process_single_source sink clock video_source st).1.error_count
        = st.error_count
          + (if (process_single_source sink clock video_source st).2.isOk then 0 else 1)
    ∧ st.processed_count
        ≤ (process_single_source sink clock video_source st).1.processed_count := by
  have herr := runBatches_error_count sink video_source (sourceBatches video_source clock) st
  have hproc := runBatches_processed_count_mono sink video_source
    (sourceBatches video_source clock) st
  unfold process_single_source
  rcases hr : runBatches sink video_source (sourceBatches video_source clock) st
    with ⟨st', r⟩
  rw [hr] at herr hproc
  simp only at herr hproc
  cases r with
  | ok v =>
    refine ⟨rfl, ?_, hproc⟩
    show st'.error_count = st.error_count + 0
    rw [herr, Nat.add_zero]
  | error e =>
    refine ⟨rfl, ?_, hproc⟩
    show st'.error_count + 1 = st.error_count + 1
    rw [herr]

/-- Counterexample to claim C5 as stated: with a failing sink the
supervisor's call does NOT absorb the failure — `_process_single_source`
increments the error counter and then re-raises (`raise`, line 222), so the
failure propagates out of the supervisor (it is absorbed only later, by the
coordinator's `gather(..., return_exceptions=True)`). -/
theorem claim_C5_counterexample :
    (process_single_source failingSink (fun _ => 0) "video_source_0" ⟨0, 0⟩).2
        = Except.error "sink failure"
    ∧ (process_single_source failingSink (fun _ => 0) "video_source_0" ⟨0, 0⟩).1.error_count
        = 1 :=
  ⟨rfl, rfl⟩

/-- Claim C6 as stated is false for the batch-size half (see
`claim_C6_counterexample`).  Amended: construction of the stream processor
fails (a `ValueError` from `asyncio.Semaphore` or `ThreadPoolExecutor`)
exactly for a non-positive concurrency limit; the batch size is never
validated anywhere — the constructor does not even receive it — so a batch
size `≤ 0` is not a startup error. -/
theorem claim_C6_construction_validation (max_concurrent_tasks : Int) :
    (mkReactiveVideoStream max_concurrent_tasks).isOk = true
      ↔ 0 < max_concurrent_tasks := by
  constructor
  · intro h
    by_contra hneg
    have hle : max_concurrent_tasks ≤ 0 := by omega
    unfold mkReactiveVideoStream at h
    by_cases h1 : max_concurrent_tasks < 0
    · rw [if_pos h1] at h
      exact absurd h (by decide)
    · rw [if_neg h1, if_pos hle] at h
      exact absurd h (by decide)
  · intro h
    unfold mkReactiveVideoStream
    rw [if_neg (by omega), if_neg (by omega)]
    rfl

/-- Counterexample to claim C6 as stated: a configuration with a valid
concurrency limit and batch size `0` does not fail fast at construction —
construction succeeds, the source produces frames, and `batch_process`
emits batches (three one-element batches for three frames) instead of
raising a configuration error. -/
theorem claim_C6_counterexample :
    mkReactiveVideoStream 10 = Except.ok 10
    ∧ (batch_process (create_video_stream "video_source_0" (fun _ => 0) 3) 0).length
        = 3 :=
  ⟨rfl, rfl⟩

/-- Claim C7: the frame source emits exactly `count` frames whose ids are
`0, 1, ..., count - 1` in production order (the source code hard-codes
`count = 100`; the theorem covers every count, hence that one). -/
theorem claim_C7_source_ids (video_source : String) (clock : Nat → Nat)
    (count : Nat) :
    (create_video_stream video_source clock count).length = count
    ∧ (create_video_stream video_source clock count).map VideoFrame.frame_id
        = List.range count := by
  constructor
  · unfold create_video_stream
    rw [List.length_map, List.length_range]
  · unfold create_video_stream
    rw [List.map_map]
    exact List.map_id' (List.range count)

/-- Claim C8: `filter_frames` is deterministic — two applications with the
same predicate to the same (deterministic) source stream yield the same id
sequence, trivially so in this pure embedding — and idempotent: filtering
an already-filtered stream with the same predicate changes nothing. -/
theorem claim_C8_filter_deterministic_idempotent (video_source : String)
    (clock : Nat → Nat) (count : Nat) (predicate : VideoFrame → Bool) :
    (filter_frames (create_video_stream video_source clock count) predicate).map
        VideoFrame.frame_id
      = (filter_frames (create_video_stream video_source clock count) predicate).map
        VideoFrame.frame_id
    ∧ (∀ stream : List VideoFrame,
        filter_frames (filter_frames stream predicate) predicate
          = filter_frames stream predicate) := by
  refine ⟨rfl, ?_⟩
  intro stream
  unfold filter_frames
  induction stream with
  | nil => rfl
  | cons frame rest ih =>
    cases hp : predicate frame <;> simp [List.filter_cons, hp, ih]

/-- Claim C9: on a registry with unique ids (a Python dict guarantees
this), `start_stream` returns `True` and appends exactly one entry when the
id is absent, returns `False` and leaves the registry unchanged when it is
present; `stop_stream` returns `True` and removes exactly that id's entry
when present, returns `False` and leaves the registry unchanged when
absent. -/
theorem claim_C9_registry_start_stop (active_streams : StreamRegistry)
    (stream_id source : String) (now : Nat)
    (hnodup : (active_streams.map Prod.fst).Nodup) :
    (stream_id ∉ active_streams.map Prod.fst →
        start_stream active_streams stream_id source now
          = (true, active_streams ++ [(stream_id, ⟨source, now, "active"⟩)]))
    ∧ (stream_id ∈ active_streams.map Prod.fst →
        start_stream active_streams stream_id source now = (false, active_streams))
    ∧ (stream_id ∈ active_streams.map Prod.fst →
        (stop_stream active_streams stream_id).1 = true
        ∧ (stop_stream active_streams stream_id).2
            = active_streams.filter (fun p => !(p.1 == stream_id))
        ∧ (stop_stream active_streams stream_id).2.length + 1
            = active_streams.length)
    ∧ (stream_id ∉ active_streams.map Prod.fst →
        stop_stream active_streams stream_id = (false, active_streams)) := by
  have hiff := any_key_iff active_streams stream_id
  refine ⟨?_, ?_, ?_, ?_⟩
  · intro hmem
    unfold start_stream
    rw [if_neg (fun hc => hmem (hiff.mp hc))]
  · intro hmem
    unfold start_stream
    rw [if_pos (hiff.mpr hmem)]
  · intro hmem
    unfold stop_stream
    rw [if_pos (hiff.mpr hmem)]
    exact ⟨rfl, rfl, filter_not_key_length active_streams stream_id hnodup hmem⟩
  · intro hmem
    unfold stop_stream
    rw [if_neg (fun hc => hmem (hiff.mp hc))]

/-- Witness for C9: a one-entry registry; stopping the present id
succeeds. -/
theorem claim_C9_witness :
    (([("stream_a", ⟨"cam", 0, "active"⟩)] : StreamRegistry).map Prod.fst).Nodup
    ∧ (stop_stream [("stream_a", ⟨"cam", 0, "active"⟩)] "stream_a").1 = true :=
  ⟨by decide,
   ((claim_C9_registry_start_stop [("stream_a", ⟨"cam", 0, "active"⟩)] "stream_a"
      "cam" 0 (by decide)).2.2.1 (by decide)).1⟩

/-- Claim C10: with a non-positive batch size the loop raises no error and
the threshold `len(batch) >= batch_size` fires after every append, so each
input frame is emitted as its own one-element batch. -/
theorem claim_C10_nonpositive_batch_singletons (stream : List VideoFrame)
    (batch_size : Int) (hnp : batch_size ≤ 0) (hne : stream ≠ []) :
    batch_process stream batch_size
        = stream.map (fun frame => [process_frame_async frame])
    ∧ batch_process stream batch_size ≠ []
    ∧ (batch_process stream batch_size).length = stream.length
    ∧ (∀ batch ∈ batch_process stream batch_size, batch.length = 1) := by
  have h1 : batch_process stream batch_size
      = stream.map (fun frame => [process_frame_async frame]) := by
    rw [batch_process_eq_chunkList, effSize_of_nonpos _ hnp, chunkList_one,
      List.map_map]
    rfl
  refine ⟨h1, ?_, ?_, ?_⟩
  · rw [h1]
    simpa using hne
  · rw [h1, List.length_map]
  · intro batch hb
    rw [h1] at hb
    rcases List.mem_map.mp hb with ⟨frame, _, rfl⟩
    rfl

/-- Witness for C10: three frames at batch size 0 give three singleton
batches. -/
theorem claim_C10_witness :
    ((0 : Int) ≤ 0 ∧ create_video_stream "v" (fun _ => 0) 3 ≠ [])
    ∧ (batch_process (create_video_stream "v" (fun _ => 0) 3) 0).length
        = (create_video_stream "v" (fun _ => 0) 3).length :=
  ⟨⟨by decide, by decide⟩,
   (claim_C10_nonpositive_batch_singletons (create_video_stream "v" (fun _ => 0) 3) 0
     (by decide) (by decide)).2.2.1⟩

end VideoSite
